import Mathlib

/-!
Verification of the concurrency-primitives demo (blog-mutex-example).

The repository's own code (src/main.rs) is a demonstration harness over four
primitives that live outside the repository (std / parking_lot):
`Arc` (the spec's SharedOwnership), `parking_lot::Mutex` (ExclusiveLock),
`parking_lot::ReentrantMutex` (ReentrantLock) and `RefCell`
(DynamicBorrowCell).  Those primitives are modelled here from the spec's
data-model and contract text; the demonstration functions
(`reentrant_mut_fn1` and friends, `reentrant_fn1`/`reentrant_fn2`,
`regular_fn1`/`regular_fn2`, and the scenarios in `main`) are embedded
directly from the source.

Blocking is modelled by `Option`: an acquisition that would block the
calling thread forever in the modelled window is `none`; `some` is an
immediate, non-blocking success.  Fallible borrows return `Except`.
Thread identities are natural numbers.
-/

/-- The payload struct from src/main.rs: `struct SomeData { name: String }`. -/
structure SomeData where
  name : String
deriving Repr, DecidableEq

/-- Modelled from the spec: `DynamicBorrowCell<T>` (the role `RefCell` plays
in the source, which is not part of this repository).  Attributes: a
borrow-state counter (0 = free, N>0 = N shared borrows active, -1 = one
exclusive borrow active) and the wrapped value. -/
structure DynamicBorrowCell (T : Type) where
  borrowState : Int
  value : T
deriving Repr, DecidableEq

/-- Modelled from the spec: the error a conflicting borrow request fails
with.  It is an ordinary value returned to the caller (an `Except.error`),
hence catchable/recoverable at the call site. -/
inductive BorrowError where
  | BorrowConflict
deriving Repr, DecidableEq

/-- Modelled from the spec: `borrow()` succeeds and increments the shared
count unless an exclusive borrow is active (state = -1), in which case it
fails with `BorrowConflict`. -/
def DynamicBorrowCell.borrow {T : Type} (c : DynamicBorrowCell T) :
    Except BorrowError (DynamicBorrowCell T) :=
  if c.borrowState = -1 then .error .BorrowConflict
  else .ok { c with borrowState := c.borrowState + 1 }

/-- Modelled from the spec: `borrow_mut()` succeeds and sets the state to
exclusive unless any borrow is active (state ≠ 0), in which case it fails
with `BorrowConflict`. -/
def DynamicBorrowCell.borrow_mut {T : Type} (c : DynamicBorrowCell T) :
    Except BorrowError (DynamicBorrowCell T) :=
  if c.borrowState ≠ 0 then .error .BorrowConflict
  else .ok { c with borrowState := -1 }

/-- Modelled from the spec: dropping a shared-borrow token reverses its
transition (decrements the shared count).  A drop can only happen while a
shared token is live, i.e. while the state is positive. -/
def DynamicBorrowCell.dropShared {T : Type} (c : DynamicBorrowCell T) :
    DynamicBorrowCell T :=
  if 0 < c.borrowState then { c with borrowState := c.borrowState - 1 } else c

/-- Modelled from the spec: dropping the exclusive-borrow token returns the
cell to the free state.  A drop can only happen while the exclusive token is
live, i.e. while the state is -1. -/
def DynamicBorrowCell.dropExclusive {T : Type} (c : DynamicBorrowCell T) :
    DynamicBorrowCell T :=
  if c.borrowState = -1 then { c with borrowState := 0 } else c

/-- Modelled from the spec: `ReentrantLock<T>` (the role
`parking_lot::ReentrantMutex` plays in the source).  Attributes: current
owner thread identity (or none), an acquisition count, and the wrapped
value. -/
structure ReentrantLock (T : Type) where
  owner : Option Nat
  count : Nat
  value : T
deriving Repr, DecidableEq

/-- Modelled from the spec: `ReentrantLock.acquire`.  If no thread owns the
lock, the caller becomes owner with count 1.  If the caller already owns it,
the count is incremented and a guard is returned immediately without
blocking.  If a different thread owns it, the caller blocks (`none`). -/
def ReentrantLock.acquire {T : Type} (t : Nat) (l : ReentrantLock T) :
    Option (ReentrantLock T) :=
  match l.owner with
  | none => some { l with owner := some t, count := 1 }
  | some o => if o = t then some { l with count := l.count + 1 } else none

/-- Modelled from the spec: dropping a reentrant guard decrements the count;
when the count reaches 0 the owner slot is cleared. -/
def ReentrantLock.release {T : Type} (l : ReentrantLock T) : ReentrantLock T :=
  if l.count ≤ 1 then { l with owner := none, count := 0 }
  else { l with count := l.count - 1 }

/-- Iterated guard release (dropping k nested guards one by one). -/
def ReentrantLock.releaseN {T : Type} (l : ReentrantLock T) : Nat → ReentrantLock T
  | 0 => l
  | k + 1 => l.release.releaseN k

/-- Modelled from the spec: `ExclusiveLock<T>` (the role
`parking_lot::Mutex` plays in the source).  A binary state, recorded
together with the identity of the holding thread, and the wrapped value. -/
structure ExclusiveLock (T : Type) where
  holder : Option Nat
  value : T
deriving Repr, DecidableEq

/-- Modelled from the spec: `ExclusiveLock.acquire` blocks until the lock is
free; there is no re-entry check, so a locked lock blocks every caller,
including its own holder (`none` = blocks, no error is signaled). -/
def ExclusiveLock.acquire {T : Type} (t : Nat) (l : ExclusiveLock T) :
    Option (ExclusiveLock T) :=
  match l.holder with
  | none => some { l with holder := some t }
  | some _ => none

/-- Modelled from the spec: guard destruction releases the exclusive lock. -/
def ExclusiveLock.releaseX {T : Type} (l : ExclusiveLock T) : ExclusiveLock T :=
  { l with holder := none }

/-- Modelled from the spec: `SharedOwnership<T>` (the role `Arc` plays in
the source): a strong-reference count and the owned value; `value = none`
once the value has been destroyed. -/
structure SharedOwnership (T : Type) where
  count : Nat
  value : Option T
deriving Repr, DecidableEq

/-- Modelled from the spec: wrapping a value creates a handle with count 1. -/
def SharedOwnership.new {T : Type} (v : T) : SharedOwnership T :=
  { count := 1, value := some v }

/-- Modelled from the spec: cloning increments the count. -/
def SharedOwnership.cloneH {T : Type} (s : SharedOwnership T) : SharedOwnership T :=
  { s with count := s.count + 1 }

/-- Iterated cloning: N clones of the handle. -/
def SharedOwnership.cloneN {T : Type} (s : SharedOwnership T) : Nat → SharedOwnership T
  | 0 => s
  | k + 1 => s.cloneH.cloneN k

/-- Modelled from the spec: dropping a handle decrements the count; the drop
that takes the count from 1 to 0 destroys the value.  The boolean reports
whether this drop destroyed the value. -/
def SharedOwnership.dropH {T : Type} (s : SharedOwnership T) :
    SharedOwnership T × Bool :=
  if s.count = 1 then ({ count := 0, value := none }, true)
  else if s.count = 0 then (s, false)
  else ({ s with count := s.count - 1 }, false)

/-- Iterated dropping; the second component counts how many of the drops
destroyed the value. -/
def SharedOwnership.dropsN {T : Type} (s : SharedOwnership T) :
    Nat → SharedOwnership T × Nat
  | 0 => (s, 0)
  | k + 1 =>
    let (s1, b) := s.dropH
    let (s2, n) := s1.dropsN k
    (s2, n + (if b then 1 else 0))

/-! ## The demonstration functions, embedded from src/main.rs

The shared state behind `Arc<ReentrantMutex<RefCell<SomeData>>>` is a
`ReentrantLock (DynamicBorrowCell SomeData)`; each Rust function becomes a
function from the calling thread id and the shared state to `Option` of the
state at return (`none` = the call blocks or a borrow panics, so control
never returns).  `Option.bind` sequences the calls. -/

/-- The shared state of the mutable reentrant demo. -/
abbrev RMState := ReentrantLock (DynamicBorrowCell SomeData)

/-- Embeds `reentrant_mut_view_data` (src/main.rs lines 35-44): lock the
mutex, take a shared borrow, read the name (returned as the first
component), drop the borrow and the guard at function return. -/
def reentrant_mut_view_data (t : Nat) (s : RMState) : Option (String × RMState) :=
  match s.acquire t with
  | none => none
  | some s1 =>
    match s1.value.borrow with
    | .error _ => none
    | .ok c1 =>
      let nm := c1.value.name
      let c2 := c1.dropShared
      some (nm, ReentrantLock.release { s1 with value := c2 })

/-- Embeds `reentrant_mut_change_data` (src/main.rs lines 46-54): lock the
mutex, take an exclusive borrow, set `name := new_name`, drop the borrow and
the guard at function return. -/
def reentrant_mut_change_data (t : Nat) (s : RMState) (new_name : String) :
    Option RMState :=
  match s.acquire t with
  | none => none
  | some s1 =>
    match s1.value.borrow_mut with
    | .error _ => none
    | .ok c1 =>
      let c2 := { c1 with value := { c1.value with name := new_name } }
      let c3 := c2.dropExclusive
      some (ReentrantLock.release { s1 with value := c3 })

/-- Embeds `reentrant_mut_fn3` (src/main.rs lines 19-22): change the name to
"samantha". -/
def reentrant_mut_fn3 (t : Nat) (s : RMState) : Option RMState :=
  reentrant_mut_change_data t s "samantha"

/-- Embeds `reentrant_mut_fn2` (src/main.rs lines 24-33): view the data,
then call `reentrant_mut_fn3`.  The name observed by the view is carried
along. -/
def reentrant_mut_fn2 (t : Nat) (s : RMState) : Option (String × RMState) :=
  match reentrant_mut_view_data t s with
  | none => none
  | some (nm, s1) =>
    match reentrant_mut_fn3 t s1 with
    | none => none
    | some s2 => some (nm, s2)

/-- Embeds `reentrant_mut_fn1` (src/main.rs lines 56-78): change the name to
"jane", then call `reentrant_mut_fn2`. -/
def reentrant_mut_fn1 (t : Nat) (s : RMState) : Option (String × RMState) :=
  match reentrant_mut_change_data t s "jane" with
  | none => none
  | some s1 => reentrant_mut_fn2 t s1

/-- Embeds `reentrant_fn2` (src/main.rs lines 80-87): lock the already-held
reentrant mutex again (nested), read the name through the guard, release at
return. -/
def reentrant_fn2 (t : Nat) (s : ReentrantLock SomeData) :
    Option (String × ReentrantLock SomeData) :=
  match s.acquire t with
  | none => none
  | some s1 => some (s1.value.name, s1.release)

/-- Embeds `reentrant_fn1` (src/main.rs lines 89-95): lock the mutex, then
call `reentrant_fn2` while still holding the guard; both guards drop at
return. -/
def reentrant_fn1 (t : Nat) (s : ReentrantLock SomeData) :
    Option (String × ReentrantLock SomeData) :=
  match s.acquire t with
  | none => none
  | some s1 =>
    match reentrant_fn2 t s1 with
    | none => none
    | some (nm, s2) => some (nm, s2.release)

/-- Embeds `regular_fn2` (src/main.rs lines 97-101): lock the already-held
non-reentrant mutex: this blocks forever (`none`); the line after the lock
is never reached. -/
def regular_fn2 (t : Nat) (s : ExclusiveLock SomeData) :
    Option (ExclusiveLock SomeData) :=
  match s.acquire t with
  | none => none
  | some s1 => some s1.releaseX

/-- Embeds `regular_fn1` (src/main.rs lines 103-109): lock the mutex, then
call `regular_fn2` while still holding the guard. -/
def regular_fn1 (t : Nat) (s : ExclusiveLock SomeData) :
    Option (ExclusiveLock SomeData) :=
  match s.acquire t with
  | none => none
  | some s1 => regular_fn2 t s1

/-- The shared state built in `main` (src/main.rs line 128) for the mutable
reentrant demo: lock free, cell free, name "billy". -/
def demoInit : RMState :=
  { owner := none, count := 0,
    value := { borrowState := 0, value := { name := "billy" } } }

/-- The state after `reentrant_mut_change_data _ demoInit "jane"`. -/
def demoJane : RMState :=
  { owner := none, count := 0,
    value := { borrowState := 0, value := { name := "jane" } } }

/-- The state at the end of the mutable reentrant demo. -/
def demoFinal : RMState :=
  { owner := none, count := 0,
    value := { borrowState := 0, value := { name := "samantha" } } }

/-! ## Operation sequences over a cell

`cellStep` applies one request or token drop to a `DynamicBorrowCell`; a
failed request leaves the cell unchanged (the error is returned to the
caller and no transition happens). -/

/-- One operation on a `DynamicBorrowCell`: a shared or exclusive borrow
request, or the drop of a live token. -/
inductive CellOp where
  | reqShared
  | reqExclusive
  | dropSharedTok
  | dropExclusiveTok
deriving Repr, DecidableEq

/-- Apply one `CellOp`; a rejected request does not change the cell. -/
def cellStep {T : Type} (c : DynamicBorrowCell T) : CellOp → DynamicBorrowCell T
  | .reqShared =>
    match c.borrow with
    | .ok c1 => c1
    | .error _ => c
  | .reqExclusive =>
    match c.borrow_mut with
    | .ok c1 => c1
    | .error _ => c
  | .dropSharedTok => c.dropShared
  | .dropExclusiveTok => c.dropExclusive

/-- Run a sequence of `CellOp`s from a starting cell. -/
def cellRun {T : Type} (c : DynamicBorrowCell T) (ops : List CellOp) :
    DynamicBorrowCell T :=
  ops.foldl cellStep c

/-! ## Lock events and interleaving systems

`LockEvt` is one thread-attributed event on a lock: an acquisition attempt
or the drop of a guard.  For mutual exclusion we track, next to the lock
state, how many live guards each thread holds. -/

/-- A thread-attributed lock event. -/
inductive LockEvt where
  | acquire (t : Nat)
  | release (t : Nat)
deriving Repr, DecidableEq

/-- One lock-API step on a bare `ReentrantLock`: the complete surface the
guard exposes.  A blocked acquisition leaves the lock unchanged. -/
def rlockStep {T : Type} (l : ReentrantLock T) : LockEvt → ReentrantLock T
  | .acquire t =>
    match ReentrantLock.acquire t l with
    | some l1 => l1
    | none => l
  | .release _ => l.release

/-- Run a sequence of lock-API events on a `ReentrantLock`. -/
def rlockRun {T : Type} (l : ReentrantLock T) (evts : List LockEvt) :
    ReentrantLock T :=
  evts.foldl rlockStep l

/-- An `ExclusiveLock` together with the number of live guards each thread
holds. -/
structure XSys (T : Type) where
  lock : ExclusiveLock T
  guards : Nat → Nat

/-- One interleaving step on an `ExclusiveLock` system: a blocked acquirer
changes nothing; a successful acquirer gains a guard; a release requires a
live guard. -/
def XSys.step {T : Type} (s : XSys T) : LockEvt → XSys T
  | .acquire t =>
    match ExclusiveLock.acquire t s.lock with
    | some l1 =>
      { lock := l1, guards := fun u => if u = t then s.guards u + 1 else s.guards u }
    | none => s
  | .release t =>
    if 0 < s.guards t then
      { lock := s.lock.releaseX,
        guards := fun u => if u = t then s.guards u - 1 else s.guards u }
    else s

/-- The initial `ExclusiveLock` system: lock free, no guards. -/
def XSys.init {T : Type} (v : T) : XSys T :=
  { lock := { holder := none, value := v }, guards := fun _ => 0 }

/-- Run an event sequence from the initial `ExclusiveLock` system. -/
def XSys.run {T : Type} (v : T) (evts : List LockEvt) : XSys T :=
  evts.foldl XSys.step (XSys.init v)

/-- A `ReentrantLock` together with the number of live guards each thread
holds. -/
structure RSys (T : Type) where
  lock : ReentrantLock T
  guards : Nat → Nat

/-- One interleaving step on a `ReentrantLock` system. -/
def RSys.step {T : Type} (s : RSys T) : LockEvt → RSys T
  | .acquire t =>
    match ReentrantLock.acquire t s.lock with
    | some l1 =>
      { lock := l1, guards := fun u => if u = t then s.guards u + 1 else s.guards u }
    | none => s
  | .release t =>
    if 0 < s.guards t then
      { lock := s.lock.release,
        guards := fun u => if u = t then s.guards u - 1 else s.guards u }
    else s

/-- The initial `ReentrantLock` system: lock free, no guards. -/
def RSys.init {T : Type} (v : T) : RSys T :=
  { lock := { owner := none, count := 0, value := v }, guards := fun _ => 0 }

/-- Run an event sequence from the initial `ReentrantLock` system. -/
def RSys.run {T : Type} (v : T) (evts : List LockEvt) : RSys T :=
  evts.foldl RSys.step (RSys.init v)

/-! ## Helper lemmas -/

/-- Releasing k guards of an owner holding more than k leaves the owner in
place and decrements the count by k. -/
theorem ReentrantLock.releaseN_owned {T : Type} (k : Nat) :
    ∀ (c t : Nat) (v : T), k < c →
      ReentrantLock.releaseN ⟨some t, c, v⟩ k = ⟨some t, c - k, v⟩ := by
  induction k with
  | zero => intro c t v _; rfl
  | succ k ih =>
    intro c t v h
    show ReentrantLock.releaseN (ReentrantLock.release ⟨some t, c, v⟩) k = _
    have hc : ¬ c ≤ 1 := by omega
    rw [show ReentrantLock.release (⟨some t, c, v⟩ : ReentrantLock T)
      = ⟨some t, c - 1, v⟩ by simp [ReentrantLock.release, hc]]
    rw [ih (c - 1) t v (by omega)]
    congr 1
    omega

/-- Releasing exactly as many guards as were acquired frees the lock. -/
theorem ReentrantLock.releaseN_all {T : Type} (c : Nat) :
    ∀ (t : Nat) (v : T),
      ReentrantLock.releaseN ⟨some t, c + 1, v⟩ (c + 1) = ⟨none, 0, v⟩ := by
  induction c with
  | zero => intro t v; rfl
  | succ c ih =>
    intro t v
    show ReentrantLock.releaseN (ReentrantLock.release ⟨some t, c + 2, v⟩) (c + 1) = _
    have hc : ¬ c + 2 ≤ 1 := by omega
    rw [show ReentrantLock.release (⟨some t, c + 2, v⟩ : ReentrantLock T)
      = ⟨some t, c + 1, v⟩ by simp [ReentrantLock.release, hc]]
    exact ih t v

/-! ## The claims -/

/-- Claim C1: a thread that already owns a `ReentrantLock` reacquires it
immediately without blocking, obtaining a fresh guard (the count goes up by
one), and the lock stays owned by that thread until every nested guard has
been dropped, i.e. until the acquisition count reaches 0. -/
theorem reentrantLock_reacquire_nonblocking {T : Type} (t : Nat)
    (l : ReentrantLock T) (h : l.owner = some t) :
    ReentrantLock.acquire t l = some { l with count := l.count + 1 } ∧
    (∀ k, k ≤ l.count →
      (ReentrantLock.releaseN { l with count := l.count + 1 } k).owner = some t) ∧
    (ReentrantLock.releaseN { l with count := l.count + 1 } (l.count + 1)).owner
      = none := by
  obtain ⟨o, c, v⟩ := l
  dsimp at h
  subst h
  dsimp only
  refine ⟨by simp [ReentrantLock.acquire], ?_, ?_⟩
  · intro k hk
    rw [ReentrantLock.releaseN_owned k (c + 1) t v (by omega)]
  · rw [ReentrantLock.releaseN_all c t v]

/-- Concrete instance of C1: a thread owning the lock once reacquires it and
gets count 2. -/
theorem reentrantLock_reacquire_nonblocking_witness :
    ReentrantLock.acquire 0
      (⟨some 0, 1, SomeData.mk "dave"⟩ : ReentrantLock SomeData) =
      some ⟨some 0, 2, SomeData.mk "dave"⟩ :=
  (reentrantLock_reacquire_nonblocking 0 ⟨some 0, 1, SomeData.mk "dave"⟩ rfl).1

/-- Claim C2: a thread already holding a guard on an `ExclusiveLock` that
calls `acquire()` again blocks forever (`none`, no error value is signaled);
in particular the demo chain `regular_fn1` never returns. -/
theorem exclusiveLock_self_deadlock {T : Type} (t : Nat) (l : ExclusiveLock T)
    (v : SomeData) (h : l.holder = some t) :
    ExclusiveLock.acquire t l = none ∧
    regular_fn1 t { holder := none, value := v } = none := by
  constructor
  · obtain ⟨ho, w⟩ := l
    dsimp at h
    subst h
    rfl
  · rfl

/-- Concrete instance of C2: the self-deadlock at thread 0. -/
theorem exclusiveLock_self_deadlock_witness :
    ExclusiveLock.acquire 0
      (⟨some 0, SomeData.mk "bob"⟩ : ExclusiveLock SomeData) = none ∧
    regular_fn1 0 ⟨none, SomeData.mk "bob"⟩ = none :=
  exclusiveLock_self_deadlock 0 ⟨some 0, SomeData.mk "bob"⟩ (SomeData.mk "bob") rfl

/-- Claim C3 (counterexample): the end-to-end mutable scenario in `main` is
constructed with name "billy", not "dave", and ends with name "samantha",
not "sam"; the view step observes "jane". -/
theorem endToEnd_scenario_counterexample :
    demoInit.value.value.name = "billy" ∧
    demoInit.value.value.name ≠ "dave" ∧
    reentrant_mut_fn1 0 demoInit = some ("jane", demoFinal) ∧
    demoFinal.value.value.name = "samantha" ∧
    demoFinal.value.value.name ≠ "sam" := by
  refine ⟨rfl, by decide, rfl, rfl, by decide⟩

/-- Claim C3 (amended): the mutable scenario is constructed with name
"billy"; the demo thread sets the name to "jane" under an exclusive borrow,
observes "jane" under a shared borrow, then sets it to "samantha"; each
acquisition is sequential (guard released before the next), and any thread
acquiring afterwards observes "samantha" with the lock and cell free. -/
theorem endToEnd_scenario_amended (t t2 : Nat) :
    reentrant_mut_fn1 t demoInit = some ("jane", demoFinal) ∧
    reentrant_mut_view_data t2 demoFinal = some ("samantha", demoFinal) :=
  ⟨rfl, rfl⟩

/-- Claim C4: `borrow()` succeeds (incrementing the shared count) exactly
when no exclusive borrow is active, and otherwise returns the
`BorrowConflict` value; `borrow_mut()` succeeds (setting the exclusive
state) exactly when the cell is free, and otherwise returns the
`BorrowConflict` value.  Both failures are values of `Except`, handed back
to the caller, hence catchable/recoverable at the call site. -/
theorem dynamicBorrowCell_borrow_contract {T : Type} (c : DynamicBorrowCell T) :
    (c.borrowState ≠ -1 →
      c.borrow = .ok { c with borrowState := c.borrowState + 1 }) ∧
    (c.borrowState = -1 → c.borrow = .error .BorrowConflict) ∧
    (c.borrowState = 0 → c.borrow_mut = .ok { c with borrowState := -1 }) ∧
    (c.borrowState ≠ 0 → c.borrow_mut = .error .BorrowConflict) := by
  refine ⟨?_, ?_, ?_, ?_⟩ <;> intro h <;>
    simp [DynamicBorrowCell.borrow, DynamicBorrowCell.borrow_mut, h]

/-- Concrete instance of C4: a shared borrow on a free cell succeeds. -/
theorem dynamicBorrowCell_borrow_contract_witness :
    DynamicBorrowCell.borrow
      (⟨0, SomeData.mk "dave"⟩ : DynamicBorrowCell SomeData) =
      .ok ⟨1, SomeData.mk "dave"⟩ :=
  (dynamicBorrowCell_borrow_contract ⟨0, SomeData.mk "dave"⟩).1 (by decide)

/-- Claim C9: in the demonstration chain started by `reentrant_mut_fn1`,
each borrow request is issued with the cell in the free state (every token
is dropped at function return before the next request), so every stage
succeeds and no borrow fails. -/
theorem demo_chain_borrows_succeed (t : Nat) :
    demoInit.value.borrowState = 0 ∧
    reentrant_mut_change_data t demoInit "jane" = some demoJane ∧
    demoJane.value.borrowState = 0 ∧
    reentrant_mut_view_data t demoJane = some ("jane", demoJane) ∧
    reentrant_mut_fn3 t demoJane = some demoFinal ∧
    demoFinal.value.borrowState = 0 :=
  ⟨rfl, rfl, rfl, rfl, rfl, rfl⟩

/-- N clones starting from a handle with count c give count c + N. -/
theorem SharedOwnership.cloneN_eq {T : Type} (n : Nat) :
    ∀ (c : Nat) (w : Option T),
      SharedOwnership.cloneN ⟨c, w⟩ n = ⟨c + n, w⟩ := by
  induction n with
  | zero => intro c w; rfl
  | succ n ih =>
    intro c w
    show SharedOwnership.cloneN ⟨c + 1, w⟩ n = _
    rw [ih]
    congr 1
    omega

/-- Dropping fewer handles than exist never destroys the value. -/
theorem SharedOwnership.dropsN_live {T : Type} (k : Nat) :
    ∀ (c : Nat) (w : T), k < c →
      SharedOwnership.dropsN ⟨c, some w⟩ k = (⟨c - k, some w⟩, 0) := by
  induction k with
  | zero => intro c w _; rfl
  | succ k ih =>
    intro c w h
    have hc1 : c ≠ 1 := by omega
    have hc0 : c ≠ 0 := by omega
    show (let p := SharedOwnership.dropH ⟨c, some w⟩
          let q := SharedOwnership.dropsN p.1 k
          (q.1, q.2 + (if p.2 then 1 else 0))) = _
    rw [show SharedOwnership.dropH (⟨c, some w⟩ : SharedOwnership T)
      = (⟨c - 1, some w⟩, false) by simp [SharedOwnership.dropH, hc1, hc0]]
    dsimp only
    rw [ih (c - 1) w (by omega)]
    dsimp only
    rw [show c - 1 - k = c - (k + 1) by omega]
    simp

/-- Dropping exactly as many handles as exist destroys the value once. -/
theorem SharedOwnership.dropsN_last {T : Type} (c : Nat) :
    ∀ w : T, SharedOwnership.dropsN ⟨c + 1, some w⟩ (c + 1) = (⟨0, none⟩, 1) := by
  induction c with
  | zero => intro w; rfl
  | succ c ih =>
    intro w
    show (let p := SharedOwnership.dropH ⟨c + 2, some w⟩
          let q := SharedOwnership.dropsN p.1 (c + 1)
          (q.1, q.2 + (if p.2 then 1 else 0))) = _
    rw [show SharedOwnership.dropH (⟨c + 2, some w⟩ : SharedOwnership T)
      = (⟨c + 1, some w⟩, false) by simp [SharedOwnership.dropH]]
    dsimp only
    rw [ih w]
    simp

/-- Claim C6: after N clones and N+1 drops of a `SharedOwnership` handle the
wrapped value is destroyed exactly once, exactly when the count goes from 1
to 0; before the last drop every read through a live handle still sees the
value. -/
theorem sharedOwnership_refcount_correct {T : Type} (v : T) (N : Nat) :
    (∀ k, k ≤ N →
      (SharedOwnership.dropsN (SharedOwnership.cloneN (SharedOwnership.new v) N) k).2
        = 0 ∧
      (SharedOwnership.dropsN (SharedOwnership.cloneN (SharedOwnership.new v) N) k).1.value
        = some v ∧
      0 < (SharedOwnership.dropsN (SharedOwnership.cloneN (SharedOwnership.new v) N) k).1.count) ∧
    (SharedOwnership.dropsN (SharedOwnership.cloneN (SharedOwnership.new v) N) (N + 1)).2
      = 1 ∧
    (SharedOwnership.dropsN (SharedOwnership.cloneN (SharedOwnership.new v) N) (N + 1)).1.count
      = 0 ∧
    (SharedOwnership.dropsN (SharedOwnership.cloneN (SharedOwnership.new v) N) (N + 1)).1.value
      = none := by
  have hclone : SharedOwnership.cloneN (SharedOwnership.new v) N = ⟨1 + N, some v⟩ :=
    SharedOwnership.cloneN_eq N 1 (some v)
  rw [hclone]
  refine ⟨?_, ?_, ?_, ?_⟩
  · intro k hk
    rw [SharedOwnership.dropsN_live k (1 + N) v (by omega)]
    refine ⟨rfl, rfl, by simp; omega⟩
  all_goals rw [show (⟨1 + N, some v⟩ : SharedOwnership T) = ⟨N + 1, some v⟩ by
      congr 1; omega]
  all_goals rw [SharedOwnership.dropsN_last N v]

/-- Concrete instance of C6: two clones, three drops, one destruction. -/
theorem sharedOwnership_refcount_correct_witness :
    (SharedOwnership.dropsN
      (SharedOwnership.cloneN (SharedOwnership.new (SomeData.mk "dave")) 2) 3).2 = 1 :=
  (sharedOwnership_refcount_correct (SomeData.mk "dave") 2).2.1

/-- One cell operation keeps the borrow counter in its legal range. -/
theorem cellStep_lb {T : Type} (c : DynamicBorrowCell T) (op : CellOp)
    (h : -1 ≤ c.borrowState) : -1 ≤ (cellStep c op).borrowState := by
  cases op with
  | reqShared =>
    by_cases hb : c.borrowState = -1 <;>
      simp [cellStep, DynamicBorrowCell.borrow, hb] <;> omega
  | reqExclusive =>
    by_cases hb : c.borrowState = 0 <;>
      simp [cellStep, DynamicBorrowCell.borrow_mut, hb] <;> omega
  | dropSharedTok =>
    by_cases hb : 0 < c.borrowState <;>
      simp [cellStep, DynamicBorrowCell.dropShared, hb] <;> omega
  | dropExclusiveTok =>
    by_cases hb : c.borrowState = -1 <;>
      simp [cellStep, DynamicBorrowCell.dropExclusive, hb] <;> omega

/-- Any sequence of cell operations keeps the counter in its legal range. -/
theorem cellRun_lb {T : Type} (ops : List CellOp) :
    ∀ c : DynamicBorrowCell T, -1 ≤ c.borrowState →
      -1 ≤ (cellRun c ops).borrowState := by
  induction ops with
  | nil => intro c h; exact h
  | cons op ops ih => intro c h; exact ih (cellStep c op) (cellStep_lb c op h)

/-- Claim C5: along every sequence of borrow requests and token drops the
cell state stays in the legal range (never an impossible mix of exclusive
and shared: -1 is exclusive, positive is shared, and the counter never drops
below -1); while exclusive no shared borrow is granted and while shared no
exclusive borrow is granted; a rejected request leaves the cell unchanged;
and once the counter is back to 0 (all conflicting tokens dropped) both
kinds of borrow succeed again. -/
theorem dynamicBorrowCell_invariant {T : Type} (v : T) (ops : List CellOp) :
    -1 ≤ (cellRun ⟨0, v⟩ ops).borrowState ∧
    ((cellRun ⟨0, v⟩ ops).borrowState = -1 →
      (cellRun ⟨0, v⟩ ops).borrow = .error .BorrowConflict) ∧
    (0 < (cellRun ⟨0, v⟩ ops).borrowState →
      (cellRun ⟨0, v⟩ ops).borrow_mut = .error .BorrowConflict) ∧
    (∀ c : DynamicBorrowCell T,
      c.borrow = .error .BorrowConflict → cellStep c .reqShared = c) ∧
    (∀ c : DynamicBorrowCell T,
      c.borrow_mut = .error .BorrowConflict → cellStep c .reqExclusive = c) ∧
    ((cellRun ⟨0, v⟩ ops).borrowState = 0 →
      (cellRun ⟨0, v⟩ ops).borrow
        = .ok { cellRun ⟨0, v⟩ ops with borrowState := 1 } ∧
      (cellRun ⟨0, v⟩ ops).borrow_mut
        = .ok { cellRun ⟨0, v⟩ ops with borrowState := -1 }) := by
  refine ⟨cellRun_lb ops ⟨0, v⟩ (by norm_num), ?_, ?_, ?_, ?_, ?_⟩
  · intro h
    simp [DynamicBorrowCell.borrow, h]
  · intro h
    have hz : (cellRun ⟨0, v⟩ ops).borrowState ≠ 0 := by omega
    simp [DynamicBorrowCell.borrow_mut, hz]
  · intro c hc
    by_cases hb : c.borrowState = -1
    · simp [cellStep, DynamicBorrowCell.borrow, hb]
    · simp [DynamicBorrowCell.borrow, hb] at hc
  · intro c hc
    by_cases hb : c.borrowState = 0
    · simp [DynamicBorrowCell.borrow_mut, hb] at hc
    · simp [cellStep, DynamicBorrowCell.borrow_mut, hb]
  · intro h
    constructor
    · simp [DynamicBorrowCell.borrow, h]
    · simp [DynamicBorrowCell.borrow_mut, h]

/-- Concrete instance of C5: a request/drop/request sequence stays legal. -/
theorem dynamicBorrowCell_invariant_witness :
    -1 ≤ (cellRun (⟨0, SomeData.mk "dave"⟩ : DynamicBorrowCell SomeData)
      [CellOp.reqExclusive, CellOp.reqShared, CellOp.dropExclusiveTok]).borrowState :=
  (dynamicBorrowCell_invariant (SomeData.mk "dave")
    [CellOp.reqExclusive, CellOp.reqShared, CellOp.dropExclusiveTok]).1

/-- A successful reentrant acquisition leaves the wrapped value unchanged. -/
theorem ReentrantLock.acquire_value {T : Type} {t : Nat}
    {l l1 : ReentrantLock T} (h : ReentrantLock.acquire t l = some l1) :
    l1.value = l.value := by
  rcases l with ⟨o, c, v⟩
  cases o with
  | none =>
    dsimp [ReentrantLock.acquire] at h
    injection h with h1
    rw [← h1]
  | some o =>
    dsimp [ReentrantLock.acquire] at h
    by_cases ho : o = t
    · rw [if_pos ho] at h
      injection h with h1
      rw [← h1]
    · rw [if_neg ho] at h
      cases h

/-- Releasing a guard leaves the wrapped value unchanged. -/
theorem ReentrantLock.release_value {T : Type} (l : ReentrantLock T) :
    l.release.value = l.value := by
  unfold ReentrantLock.release
  split <;> rfl

/-- One lock-API event leaves the wrapped value unchanged. -/
theorem rlockStep_value {T : Type} (l : ReentrantLock T) (e : LockEvt) :
    (rlockStep l e).value = l.value := by
  cases e with
  | acquire t =>
    dsimp [rlockStep]
    cases h : ReentrantLock.acquire t l with
    | none => rfl
    | some l1 => exact ReentrantLock.acquire_value h
  | release t => exact ReentrantLock.release_value l

/-- Any sequence of lock-API events leaves the wrapped value unchanged. -/
theorem rlockRun_value {T : Type} (evts : List LockEvt) :
    ∀ l : ReentrantLock T, (rlockRun l evts).value = l.value := by
  induction evts with
  | nil => intro l; rfl
  | cons e evts ih =>
    intro l
    exact (ih (rlockStep l e)).trans (rlockStep_value l e)

/-- Claim C7: the wrapped value is reachable through a `ReentrantLock` guard
only as read-only access: the lock's whole API surface (acquisitions at any
nesting depth and guard drops) never changes the wrapped value, and the
nested-guard read in `reentrant_fn2` observes exactly the stored value. -/
theorem reentrantLock_guard_readonly {T : Type} (l : ReentrantLock T)
    (evts : List LockEvt) :
    (rlockRun l evts).value = l.value ∧
    (∀ (t : Nat) (s s2 : ReentrantLock SomeData) (nm : String),
      reentrant_fn2 t s = some (nm, s2) →
      nm = s.value.name ∧ s2.value = s.value) := by
  refine ⟨rlockRun_value evts l, ?_⟩
  intro t s s2 nm h
  dsimp [reentrant_fn2] at h
  cases ha : ReentrantLock.acquire t s with
  | none =>
    rw [ha] at h
    cases h
  | some s1 =>
    rw [ha] at h
    injection h with h1
    injection h1 with h2 h3
    constructor
    · rw [← h2, ReentrantLock.acquire_value ha]
    · rw [← h3, ReentrantLock.release_value, ReentrantLock.acquire_value ha]

/-- A successful exclusive acquisition happens only on a free lock and
records the caller as holder. -/
theorem xlock_acquire_cases {T : Type} {t : Nat}
    {l l1 : ExclusiveLock T} (h : ExclusiveLock.acquire t l = some l1) :
    l.holder = none ∧ l1 = { l with holder := some t } := by
  rcases l with ⟨ho, v⟩
  cases ho with
  | none =>
    dsimp [ExclusiveLock.acquire] at h
    injection h with h1
    exact ⟨rfl, h1.symm⟩
  | some o =>
    dsimp [ExclusiveLock.acquire] at h
    cases h

/-- A successful reentrant acquisition happens on a free lock (count set to
1) or on a lock the caller already owns (count incremented). -/
theorem rlock_acquire_cases {T : Type} {t : Nat}
    {l l1 : ReentrantLock T} (h : ReentrantLock.acquire t l = some l1) :
    (l.owner = none ∧ l1 = { l with owner := some t, count := 1 }) ∨
    (l.owner = some t ∧ l1 = { l with count := l.count + 1 }) := by
  rcases l with ⟨o, c, v⟩
  cases o with
  | none =>
    left
    dsimp [ReentrantLock.acquire] at h
    injection h with h1
    exact ⟨rfl, h1.symm⟩
  | some o =>
    dsimp [ReentrantLock.acquire] at h
    by_cases ho : o = t
    · right
      subst ho
      rw [if_pos rfl] at h
      injection h with h1
      exact ⟨rfl, h1.symm⟩
    · rw [if_neg ho] at h
      cases h

/-- One `XSys` step preserves the exclusive-lock guard invariant. -/
theorem xsys_step_inv {T : Type} (s : XSys T) (e : LockEvt)
    (h1 : ∀ u, 0 < s.guards u → s.lock.holder = some u)
    (h2 : ∀ u, s.guards u ≤ 1) :
    (∀ u, 0 < (XSys.step s e).guards u → (XSys.step s e).lock.holder = some u) ∧
    (∀ u, (XSys.step s e).guards u ≤ 1) := by
  cases e with
  | acquire t =>
    cases ha : ExclusiveLock.acquire t s.lock with
    | none =>
      have hs : XSys.step s (LockEvt.acquire t) = s := by
        dsimp [XSys.step]
        rw [ha]
      rw [hs]
      exact ⟨h1, h2⟩
    | some l1 =>
      obtain ⟨hfree, hl1⟩ := xlock_acquire_cases ha
      have hz : ∀ u, s.guards u = 0 := by
        intro u
        by_contra hnz
        have := h1 u (Nat.pos_of_ne_zero hnz)
        rw [hfree] at this
        cases this
      have hs : XSys.step s (LockEvt.acquire t)
          = { lock := l1,
              guards := fun u => if u = t then s.guards u + 1 else s.guards u } := by
        dsimp [XSys.step]
        rw [ha]
      rw [hs]
      constructor
      · intro u hu
        dsimp at hu ⊢
        by_cases hut : u = t
        · subst hut
          rw [hl1]
        · rw [if_neg hut, hz u] at hu
          exact absurd hu (by omega)
      · intro u
        dsimp
        by_cases hut : u = t
        · subst hut
          rw [if_pos rfl, hz u]
        · rw [if_neg hut]
          exact h2 u
  | release t =>
    by_cases hg : 0 < s.guards t
    · have hold := h1 t hg
      have hs : XSys.step s (LockEvt.release t)
          = { lock := s.lock.releaseX,
              guards := fun u => if u = t then s.guards u - 1 else s.guards u } := by
        dsimp [XSys.step]
        rw [if_pos hg]
      rw [hs]
      constructor
      · intro u hu
        dsimp at hu
        by_cases hut : u = t
        · subst hut
          rw [if_pos rfl] at hu
          have := h2 u
          omega
        · rw [if_neg hut] at hu
          have := h1 u hu
          rw [hold] at this
          injection this with he
          exact absurd he.symm hut
      · intro u
        dsimp
        by_cases hut : u = t
        · rw [if_pos hut]
          have := h2 u
          omega
        · rw [if_neg hut]
          exact h2 u
    · have hs : XSys.step s (LockEvt.release t) = s := by
        dsimp [XSys.step]
        rw [if_neg hg]
      rw [hs]
      exact ⟨h1, h2⟩

/-- The exclusive-lock guard invariant holds along every run. -/
theorem xsys_run_inv {T : Type} (evts : List LockEvt) :
    ∀ s : XSys T,
      (∀ u, 0 < s.guards u → s.lock.holder = some u) →
      (∀ u, s.guards u ≤ 1) →
      (∀ u, 0 < (evts.foldl XSys.step s).guards u →
        (evts.foldl XSys.step s).lock.holder = some u) ∧
      (∀ u, (evts.foldl XSys.step s).guards u ≤ 1) := by
  induction evts with
  | nil => intro s hA hB; exact ⟨hA, hB⟩
  | cons e evts ih =>
    intro s hA hB
    have h := xsys_step_inv s e hA hB
    exact ih (XSys.step s e) h.1 h.2

/-- One `RSys` step preserves the reentrant-lock guard invariant: every
thread with a live guard is the owner, and the owner's guard count matches
the lock's acquisition count. -/
theorem rsys_step_inv {T : Type} (s : RSys T) (e : LockEvt)
    (h1 : ∀ u, 0 < s.guards u → s.lock.owner = some u)
    (h2 : ∀ u, s.lock.owner = some u → s.lock.count = s.guards u) :
    (∀ u, 0 < (RSys.step s e).guards u → (RSys.step s e).lock.owner = some u) ∧
    (∀ u, (RSys.step s e).lock.owner = some u →
      (RSys.step s e).lock.count = (RSys.step s e).guards u) := by
  cases e with
  | acquire t =>
    cases ha : ReentrantLock.acquire t s.lock with
    | none =>
      have hs : RSys.step s (LockEvt.acquire t) = s := by
        dsimp [RSys.step]
        rw [ha]
      rw [hs]
      exact ⟨h1, h2⟩
    | some l1 =>
      have hs : RSys.step s (LockEvt.acquire t)
          = { lock := l1,
              guards := fun u => if u = t then s.guards u + 1 else s.guards u } := by
        dsimp [RSys.step]
        rw [ha]
      rw [hs]
      rcases rlock_acquire_cases ha with ⟨hfree, hl1⟩ | ⟨hown, hl1⟩
      · have hz : ∀ u, s.guards u = 0 := by
          intro u
          by_contra hnz
          have := h1 u (Nat.pos_of_ne_zero hnz)
          rw [hfree] at this
          cases this
        constructor
        · intro u hu
          dsimp at hu ⊢
          by_cases hut : u = t
          · subst hut
            rw [hl1]
          · rw [if_neg hut, hz u] at hu
            exact absurd hu (by omega)
        · intro u hu
          dsimp at hu ⊢
          rw [hl1] at hu
          dsimp at hu
          injection hu with he
          subst he
          rw [hl1]
          dsimp
          rw [if_pos rfl, hz t]
      · constructor
        · intro u hu
          dsimp at hu ⊢
          by_cases hut : u = t
          · subst hut
            rw [hl1]
            dsimp
            exact hown
          · rw [if_neg hut] at hu
            have := h1 u hu
            rw [hl1]
            dsimp
            exact this
        · intro u hu
          dsimp at hu ⊢
          rw [hl1] at hu
          dsimp at hu
          have hut : u = t := by
            rw [hown] at hu
            injection hu with he
            exact he.symm
          subst hut
          rw [hl1]
          dsimp
          rw [if_pos rfl, h2 u hu]
  | release t =>
    by_cases hg : 0 < s.guards t
    · have hown := h1 t hg
      have hcnt := h2 t hown
      have hs : RSys.step s (LockEvt.release t)
          = { lock := s.lock.release,
              guards := fun u => if u = t then s.guards u - 1 else s.guards u } := by
        dsimp [RSys.step]
        rw [if_pos hg]
      rw [hs]
      by_cases hc1 : s.lock.count ≤ 1
      · have hrel : s.lock.release = { s.lock with owner := none, count := 0 } := by
          unfold ReentrantLock.release
          rw [if_pos hc1]
        constructor
        · intro u hu
          dsimp at hu
          by_cases hut : u = t
          · subst hut
            rw [if_pos rfl] at hu
            omega
          · rw [if_neg hut] at hu
            have := h1 u hu
            rw [hown] at this
            injection this with he
            exact absurd he.symm hut
        · intro u hu
          dsimp at hu
          rw [hrel] at hu
          dsimp at hu
          cases hu
      · have hrel : s.lock.release = { s.lock with count := s.lock.count - 1 } := by
          unfold ReentrantLock.release
          rw [if_neg hc1]
        constructor
        · intro u hu
          dsimp at hu ⊢
          rw [hrel]
          dsimp
          by_cases hut : u = t
          · subst hut
            exact hown
          · rw [if_neg hut] at hu
            exact h1 u hu
        · intro u hu
          dsimp at hu ⊢
          rw [hrel] at hu
          dsimp at hu
          have hut : u = t := by
            rw [hown] at hu
            injection hu with he
            exact he.symm
          subst hut
          rw [hrel]
          dsimp
          rw [if_pos rfl, h2 u hu]
    · have hs : RSys.step s (LockEvt.release t) = s := by
        dsimp [RSys.step]
        rw [if_neg hg]
      rw [hs]
      exact ⟨h1, h2⟩

/-- The reentrant-lock guard invariant holds along every run. -/
theorem rsys_run_inv {T : Type} (evts : List LockEvt) :
    ∀ s : RSys T,
      (∀ u, 0 < s.guards u → s.lock.owner = some u) →
      (∀ u, s.lock.owner = some u → s.lock.count = s.guards u) →
      (∀ u, 0 < (evts.foldl RSys.step s).guards u →
        (evts.foldl RSys.step s).lock.owner = some u) ∧
      (∀ u, (evts.foldl RSys.step s).lock.owner = some u →
        (evts.foldl RSys.step s).lock.count = (evts.foldl RSys.step s).guards u) := by
  induction evts with
  | nil => intro s hA hB; exact ⟨hA, hB⟩
  | cons e evts ih =>
    intro s hA hB
    have h := rsys_step_inv s e hA hB
    exact ih (RSys.step s e) h.1 h.2

/-- Claim C8: for any interleaving of acquisitions and guard drops by any
threads, two distinct threads never hold live guards on the same
`ExclusiveLock` or on the same `ReentrantLock` at the same time. -/
theorem locks_mutual_exclusion {T : Type} (v : T) (evts : List LockEvt)
    (t1 t2 : Nat) (hne : t1 ≠ t2) :
    ¬(0 < (XSys.run v evts).guards t1 ∧ 0 < (XSys.run v evts).guards t2) ∧
    ¬(0 < (RSys.run v evts).guards t1 ∧ 0 < (RSys.run v evts).guards t2) := by
  constructor
  · rintro ⟨hg1, hg2⟩
    have hinv := xsys_run_inv evts (XSys.init v)
      (by intro u hu; dsimp [XSys.init] at hu; omega)
      (by intro u; dsimp [XSys.init]; omega)
    have e1 := hinv.1 t1 hg1
    have e2 := hinv.1 t2 hg2
    rw [e1] at e2
    injection e2 with he
    exact hne he
  · rintro ⟨hg1, hg2⟩
    have hinv := rsys_run_inv evts (RSys.init v)
      (by intro u hu; dsimp [RSys.init] at hu; omega)
      (by intro u hu; dsimp [RSys.init] at hu; cases hu)
    have e1 := hinv.1 t1 hg1
    have e2 := hinv.1 t2 hg2
    rw [e1] at e2
    injection e2 with he
    exact hne he

/-- Concrete instance of C8: after one acquisition by thread 0, threads 0
and 1 do not both hold guards. -/
theorem locks_mutual_exclusion_witness :
    ¬(0 < (XSys.run (SomeData.mk "bob") [LockEvt.acquire 0]).guards 0 ∧
      0 < (XSys.run (SomeData.mk "bob") [LockEvt.acquire 0]).guards 1) ∧
    ¬(0 < (RSys.run (SomeData.mk "bob") [LockEvt.acquire 0]).guards 0 ∧
      0 < (RSys.run (SomeData.mk "bob") [LockEvt.acquire 0]).guards 1) :=
  locks_mutual_exclusion (SomeData.mk "bob") [LockEvt.acquire 0] 0 1 (by decide)

/-- Claim C10: for a shared `ReentrantLock (DynamicBorrowCell SomeData)`
whose cell is free and whose lock is unheld or already held by the calling
thread, `reentrant_mut_change_data` returns, the name afterwards equals the
requested new name, the exclusive borrow token taken inside has been dropped
(cell free again), and the guard taken inside has been released (owner and
count are back to what they were before the call). -/
theorem reentrant_mut_change_data_correct (t : Nat) (nm : String) (s : RMState)
    (hcell : s.value.borrowState = 0)
    (hlock : (s.owner = none ∧ s.count = 0) ∨ (s.owner = some t ∧ 0 < s.count)) :
    reentrant_mut_change_data t s nm =
      some { owner := s.owner, count := s.count,
             value := { borrowState := 0, value := { name := nm } } } := by
  obtain ⟨o, c, bs, d⟩ := s
  dsimp at hcell hlock ⊢
  subst hcell
  rcases hlock with ⟨ho, hc⟩ | ⟨ho, hc⟩
  · subst ho
    subst hc
    rfl
  · subst ho
    have ha : ReentrantLock.acquire t (⟨some t, c, ⟨0, d⟩⟩ : RMState)
        = some ⟨some t, c + 1, ⟨0, d⟩⟩ := by
      simp [ReentrantLock.acquire]
    have hc1 : ¬ c + 1 ≤ 1 := by omega
    dsimp only [reentrant_mut_change_data]
    rw [ha]
    dsimp only
    simp [DynamicBorrowCell.borrow_mut, DynamicBorrowCell.dropExclusive,
      ReentrantLock.release, hc1]

/-- Concrete instance of C10: the name becomes "jane" and lock and cell are
back to free. -/
theorem reentrant_mut_change_data_correct_witness :
    reentrant_mut_change_data 0 demoInit "jane" =
      some { owner := none, count := 0,
             value := { borrowState := 0, value := { name := "jane" } } } :=
  reentrant_mut_change_data_correct 0 "jane" demoInit rfl (Or.inl ⟨rfl, rfl⟩)
